import Mathlib

/-!
Verification of the `parse_fold.cpp` witness calculator (circom-generated C++).

The generated code operates on field elements of a fixed large prime modulus `p`
through the `Fr_*` primitive layer; we embed field elements as `ZMod p` with `p`
a parameter, and each template's `..._run` function as a Lean function over
`ZMod p`, in the `Except` monad so that a failed constraint assertion (the C++
`assert(Fr_isTrue(..))` after an `Fr_eq` test) aborts the computation with a
diagnostic report, exactly as the source's fatal-abort semantics.

Constant-table values (`circuitConstants[i]` in the source, loaded from the
compiled artifact's data file, which is not part of this translation unit) are
fixed by their use sites: index 11 is 0, index 12 is 1, index 18 is 9 (the
Num2Bits bit count: the loop writes signals 0..8 and the input sits at offset
9 of the 10-signal block), index 19 is 8 (the comparator bit width n) and
index 10 is 256 (the comparison bias 2^n).  They appear below as numerals.
-/

namespace ParseFoldWitness

/-- Fatal failure of the witness computation: either a constraint-assertion
failure (carrying the template name, the circom source line printed by the
generated code, and the chain of enclosing component names), or a division by
zero inside `Fr_div`. -/
inductive CErr where
  | assertFail (templateName : String) (line : ℕ) (trace : List String)
  | divisionByZero
deriving DecidableEq

/-! ## Field primitive layer

Modelled from the spec: the `Fr_*` primitives live in the field-arithmetic
kernel (an external collaborator of this source file); §4.1 of the spec fixes
their contracts: `eq`, `neq`, `lt` compare canonical representatives in
`[0, p)`; `shr` and `band` act on the canonical integer representative and
re-reduce; `isTrue` tests nonzero; `div` multiplies by the inverse and fails
with DivisionByZero on a zero divisor. -/

variable {p : ℕ}

/-- Fr_isTrue: field truth is any nonzero element. -/
def Fr_isTrue (a : ZMod p) : Bool := decide (a ≠ 0)

/-- Fr_eq: 1 if the operands are equal, else 0. -/
def Fr_eq (a b : ZMod p) : ZMod p := if a = b then 1 else 0

/-- Fr_neq: 1 if the operands differ, else 0. -/
def Fr_neq (a b : ZMod p) : ZMod p := if a = b then 0 else 1

/-- Fr_lt: canonical-representative comparison, 1 if `a < b` as residues. -/
def Fr_lt (a b : ZMod p) : ZMod p := if a.val < b.val then 1 else 0

/-- Fr_shr: shift the canonical representative right, re-reduce. -/
def Fr_shr (a k : ZMod p) : ZMod p := ((a.val >>> k.val : ℕ) : ZMod p)

/-- Fr_band: bitwise AND of canonical representatives, re-reduce. -/
def Fr_band (a b : ZMod p) : ZMod p := ((a.val &&& b.val : ℕ) : ZMod p)

/-- Fr_div: `a` times the multiplicative inverse of `b`; DivisionByZero when
`b = 0`. -/
def Fr_div (a b : ZMod p) : Except CErr (ZMod p) :=
  if b = 0 then Except.error CErr.divisionByZero else Except.ok (a * b⁻¹)

/-! ## IsZero_2_run

Signals: 0 = `out`, 1 = `in`, 2 = `inv`.  The translation follows the source
statement by statement: branch on `Fr_neq(in, 0)`; on the true branch
`inv := 1 / in` (the only use of `Fr_div`), else `inv := 0`; then
`out := -in * inv + 1`; finally assert `in * out == 0` (circom line 33).
The `trace` argument is the chain of enclosing component names used in the
failure report (materialized by the runtime's `getTrace`, modelled from the
spec as the parent-chain of component names, innermost first). -/

/-- Result signals of one `IsZero` execution. -/
structure IsZeroOut (p : ℕ) where
  out : ZMod p
  inv : ZMod p
deriving DecidableEq

/-- Embedding of `IsZero_2_run`. -/
def IsZero_2_run (trace : List String) (input : ZMod p) :
    Except CErr (IsZeroOut p) := do
  let sig2 ← if Fr_isTrue (Fr_neq input 0) then Fr_div 1 input else Except.ok 0
  let sig0 := -input * sig2 + 1
  if Fr_isTrue (Fr_eq (input * sig0) 0) then Except.ok ⟨sig0, sig2⟩
  else Except.error (CErr.assertFail "IsZero" 33 trace)

/-! ## Num2Bits_4_run

Signals: 0..8 = the nine output bits, 9 = `in`.  Locals: `lvar 0` = the bit
count 9 (constant 18), `lvar 1` = the running weighted sum (starts 0),
`lvar 2` = the running power of two (starts 1), `lvar 3` = the loop counter
(starts 0).  Loop (`while Fr_lt lvar3 9`): write bit `lvar3` as
`(in >> lvar3) & 1`, assert `bit * (bit - 1) == 0` (line 33), accumulate
`lvar1 += bit * lvar2`, double `lvar2`, increment `lvar3`.  After the loop,
assert the reconstruction `lvar1 == in` (line 38).

The loop is translated with a fuel parameter bounding the iteration count;
the driver calls it with fuel 10, which the lemmas below show is enough for
the nine body executions plus the final condition test (fuel exhaustion is
mapped to a distinguished report that the proofs show unreachable).  The
destination index of the bit write is `Fr_toInt lvar3`, which along every
execution equals the number of bits already written, so the bit list is
extended at the tail. -/

/-- One-iteration-at-a-time translation of the `Num2Bits` while loop. -/
def Num2Bits_loop (trace : List String) (input : ZMod p) :
    ℕ → List (ZMod p) → ZMod p → ZMod p → ZMod p →
    Except CErr (List (ZMod p) × ZMod p)
  | 0, _, _, _, _ => Except.error (CErr.assertFail "Num2Bits" 0 trace)
  | fuel + 1, bits, lvar1, lvar2, lvar3 =>
    if Fr_isTrue (Fr_lt lvar3 ((9 : ℕ) : ZMod p)) then
      let b := Fr_band (Fr_shr input lvar3) 1
      if Fr_isTrue (Fr_eq (b * (b - 1)) 0) then
        Num2Bits_loop trace input fuel (bits ++ [b])
          (lvar1 + b * lvar2) (lvar2 + lvar2) (lvar3 + 1)
      else Except.error (CErr.assertFail "Num2Bits" 33 trace)
    else Except.ok (bits, lvar1)

/-- Embedding of `Num2Bits_4_run`: run the loop, then assert reconstruction
(line 38) and return the bit signals. -/
def Num2Bits_4_run (trace : List String) (input : ZMod p) :
    Except CErr (List (ZMod p)) := do
  let (bits, lvar1) ← Num2Bits_loop trace input 10 [] 0 1 0
  if Fr_isTrue (Fr_eq lvar1 input) then Except.ok bits
  else Except.error (CErr.assertFail "Num2Bits" 38 trace)

/-! ## Comparators

`LessThan_5_run` (signals 0 = out, 1 = in0, 2 = in1): creates one `Num2Bits`
child named "n2b", asserts constant 1 (circom line 90), feeds the child
`in0 + 256 - in1` (line 96) and outputs `1 - bit 8` of the child (line 98).
`GreaterEqThan_6_run` feeds its "lt" child `(in1, in0 + 1)`;
`LessEqThan_7_run` feeds its "lt" child `(in0, in1 + 1)`.
`InRange_8_run` (signals 0 = out, 1 = in, 2 = lo, 3 = hi) drives a
`GreaterEqThan` child "gte" on `(in, lo)` and a `LessEqThan` child "lte" on
`(in, hi)` and writes `out := gte.out * lte.out` (line 56); we return the
triple `(out, gte.out, lte.out)`. -/

/-- Embedding of `LessThan_5_run`. -/
def LessThan_5_run (trace : List String) (in0 in1 : ZMod p) :
    Except CErr (ZMod p) := do
  if Fr_isTrue (1 : ZMod p) then
    let bits ← Num2Bits_4_run ("n2b" :: trace) (in0 + ((256 : ℕ) : ZMod p) - in1)
    Except.ok (1 - bits.getD 8 0)
  else Except.error (CErr.assertFail "LessThan" 90 trace)

/-- Embedding of `GreaterEqThan_6_run`. -/
def GreaterEqThan_6_run (trace : List String) (in0 in1 : ZMod p) :
    Except CErr (ZMod p) := do
  let out ← LessThan_5_run ("lt" :: trace) in1 (in0 + 1)
  Except.ok out

/-- Embedding of `LessEqThan_7_run`. -/
def LessEqThan_7_run (trace : List String) (in0 in1 : ZMod p) :
    Except CErr (ZMod p) := do
  let out ← LessThan_5_run ("lt" :: trace) in0 (in1 + 1)
  Except.ok out

/-- Embedding of `InRange_8_run`; returns `(out, gte.out, lte.out)`. -/
def InRange_8_run (trace : List String) (v lo hi : ZMod p) :
    Except CErr (ZMod p × ZMod p × ZMod p) := do
  let g ← GreaterEqThan_6_run ("gte" :: trace) v lo
  let l ← LessEqThan_7_run ("lte" :: trace) v hi
  Except.ok (g * l, g, l)

/-! ## Component lifecycle: input counters and child firing

Per-child input-supply discipline, read off the source call sites.  A child's
schedule is the ordered list of input writes the parent's program performs on
it, each entry `(width, runAfter)` giving the width of the write (every write
in this artifact supplies one slot) and whether the source invokes the child's
run right after that write (either unconditionally, with
`assert(inputCounter == 0)` — the "need to run" pattern — or conditionally,
with `if (!(inputCounter -= 1)) run` — the "run if needed" pattern; a write
with `runAfter = false` carries `assert(inputCounter > 0)` instead). -/

/-- `LessThan_5_create` sets `inputCounter := 2`. -/
def LessThan_5_inputCounter : ℕ := 2

/-- `IsEqual_3_create` sets `inputCounter := 2`. -/
def IsEqual_3_inputCounter : ℕ := 2

/-- `IsZero_2_create` sets `inputCounter := 1`. -/
def IsZero_2_inputCounter : ℕ := 1

/-- The two writes `GreaterEqThan_6_run` performs on its `lt` child: first
`in[0]` ("no need to run sub component", counter asserted positive), then
`in[1]` ("need to run sub component", counter asserted zero, child run). -/
def gteLtChildSchedule : List (ℕ × Bool) := [(1, false), (1, true)]

/-- The two writes `Contains_13_run` performs on each `equalComponent` child
inside its loop: `in[1]` then `in[2]`, each through the conditional
`if (!(inputCounter -= 1)) run` pattern, so the child fires at the second. -/
def containsEqChildSchedule : List (ℕ × Bool) := [(1, false), (1, true)]

/-- The single write `Contains_13_run` performs on its `someEqual` (IsZero)
child: counter asserted zero, child run immediately. -/
def containsIszChildSchedule : List (ℕ × Bool) := [(1, true)]

/-- Value of the child's `inputCounter` after the first `k` scheduled writes,
as an integer so that going negative is expressible. -/
def counterAfter (init : ℕ) (sched : List (ℕ × Bool)) (k : ℕ) : ℤ :=
  (init : ℤ) - (((sched.take k).map (fun e => (e.1 : ℤ))).sum)

/-- The input-supply discipline the spec demands of a child's schedule: the
counter starts at the declared-input count, never goes negative, the child is
run exactly at the write that brings the counter to zero, and it is run
exactly once over the whole schedule. -/
def scheduleOk (init : ℕ) (sched : List (ℕ × Bool)) : Prop :=
  counterAfter init sched 0 = (init : ℤ) ∧
  (∀ k, k ≤ sched.length → 0 ≤ counterAfter init sched k) ∧
  (∀ k, k < sched.length →
    (((sched.getD k (0, false)).2 = true) ↔ counterAfter init sched (k + 1) = 0)) ∧
  ((sched.map (fun e => if e.2 then 1 else 0)).sum = 1)

instance (init : ℕ) (sched : List (ℕ × Bool)) : Decidable (scheduleOk init sched) := by
  unfold scheduleOk
  have h1 : Decidable (∀ k, k ≤ sched.length → 0 ≤ counterAfter init sched k) :=
    Nat.decidableBallLE _ _
  have h2 : Decidable (∀ k, k < sched.length →
      (((sched.getD k (0, false)).2 = true) ↔ counterAfter init sched (k + 1) = 0)) :=
    Nat.decidableBallLT _ _
  exact instDecidableAnd

/-! ## release_memory_component

The component-table entry mirrors the fields of the source's per-instance
record; the six heap-allocated bookkeeping arrays the release function frees
are wrapped in `Option` (freed = `none`).  The mutex/condition-variable and
parallel fields are the inert placeholders the spec notes; their payloads do
not matter, only whether they are still allocated. -/

/-- Per-instance component metadata (the source's `componentMemory[pos]`). -/
structure ComponentMem (p : ℕ) where
  templateId : ℕ
  templateName : String
  signalStart : ℕ
  inputCounter : ℕ
  componentName : String
  idFather : ℕ
  subcomponents : Option (List ℕ)
  subcomponentsParallel : Option (List Bool)
  outputIsSet : Option (List Bool)
  mutexes : Option ℕ
  cvs : Option ℕ
  sbct : Option ℕ

/-- The calculator state the release function acts on: the Signal Arena and
the Component Table. -/
structure Circom_CalcWit (p : ℕ) where
  signalValues : ℕ → ZMod p
  componentMemory : ℕ → ComponentMem p

/-- Free the six per-instance bookkeeping arrays, leaving all scalar
metadata in place. -/
def freeBookkeeping (m : ComponentMem p) : ComponentMem p :=
  { m with subcomponents := none, subcomponentsParallel := none,
           outputIsSet := none, mutexes := none, cvs := none, sbct := none }

/-- Embedding of `release_memory_component`: if `pos != 0`, delete the
bookkeeping arrays of `componentMemory[pos]`; signal values are untouched;
`pos = 0` is a no-op. -/
def release_memory_component (ctx : Circom_CalcWit p) (pos : ℕ) :
    Circom_CalcWit p :=
  if pos ≠ 0 then
    { ctx with componentMemory := fun q =>
        if q = pos then freeBookkeeping (ctx.componentMemory q)
        else ctx.componentMemory q }
  else ctx

/-! ## Statement-level semantics for the dataflow programs

Every template body in the source is a fixed sequence of two statement
shapes: an assignment of a field expression over the current arena into a
slot, and a constraint assertion comparing two field expressions (aborting
on inequality).  We give this statement language a big-step execution
relation, `none` standing for the aborted computation, and prove it
deterministic. -/

/-- The flat Signal Arena. -/
def Arena (p : ℕ) := ℕ → ZMod p

/-- Write one arena slot. -/
def writeSig (a : Arena p) (dest : ℕ) (v : ZMod p) : Arena p :=
  fun i => if i = dest then v else a i

/-- One compiled statement of a template body. -/
inductive CStmt (p : ℕ) where
  | assign (dest : ℕ) (e : Arena p → ZMod p)
  | assertEq (e₁ e₂ : Arena p → ZMod p)

/-- Big-step execution of a statement sequence over the arena; a failed
assertion aborts the whole computation (`none`). -/
inductive ExecP : List (CStmt p) → Arena p → Option (Arena p) → Prop where
  | done {a : Arena p} : ExecP [] a (some a)
  | assign {dest : ℕ} {e : Arena p → ZMod p} {rest : List (CStmt p)}
      {a : Arena p} {r : Option (Arena p)} :
      ExecP rest (writeSig a dest (e a)) r →
      ExecP (CStmt.assign dest e :: rest) a r
  | assertOk {e₁ e₂ : Arena p → ZMod p} {rest : List (CStmt p)}
      {a : Arena p} {r : Option (Arena p)} :
      e₁ a = e₂ a → ExecP rest a r →
      ExecP (CStmt.assertEq e₁ e₂ :: rest) a r
  | assertFail {e₁ e₂ : Arena p → ZMod p} {rest : List (CStmt p)}
      {a : Arena p} :
      e₁ a ≠ e₂ a →
      ExecP (CStmt.assertEq e₁ e₂ :: rest) a none

/-- The `IsZero` body as a statement sequence over a signal block based at
`base` (0 = out, 1 = in, 2 = inv), the branch on `in != 0` folded into the
assigned expression. -/
def isZeroStmts (base : ℕ) : List (CStmt p) :=
  [ CStmt.assign (base + 2)
      (fun a => if a (base + 1) ≠ 0 then 1 * (a (base + 1))⁻¹ else 0),
    CStmt.assign (base + 0) (fun a => -(a (base + 1)) * a (base + 2) + 1),
    CStmt.assertEq (fun a => a (base + 1) * a (base + 0)) (fun _ => 0) ]

/-! ## General lemmas about the embedded primitives -/

/-- The bit of weight `2^i` of a natural number, as the source computes it:
`(v >> i) & 1`. -/
def bitSpec (v i : ℕ) : ℕ := (v >>> i) &&& 1

theorem bitSpec_le_one (v i : ℕ) : bitSpec v i ≤ 1 := by
  unfold bitSpec
  rw [Nat.and_one_is_mod]
  omega

theorem bitSpec_eq_div_mod (v i : ℕ) : bitSpec v i = v / 2 ^ i % 2 := by
  unfold bitSpec
  rw [Nat.and_one_is_mod, Nat.shiftRight_eq_div_pow]

theorem getD_range_map {α : Type} (f : ℕ → α) (d : α) {n i : ℕ} (h : i < n) :
    (((List.range n).map f).getD i d) = f i := by
  rw [List.getD_eq_getElem?_getD, List.getElem?_map, List.getElem?_range h]
  rfl

theorem one_ne_zero_zmod (hp : 1 < p) : (1 : ZMod p) ≠ 0 := by
  haveI : NeZero p := ⟨by omega⟩
  intro h
  have h1 : (1 : ZMod p).val = 1 := by
    haveI := Fact.mk hp
    exact ZMod.val_one p
  rw [h, ZMod.val_zero] at h1
  omega

theorem Fr_isTrue_one (hp : 1 < p) : Fr_isTrue (1 : ZMod p) = true := by
  rw [Fr_isTrue, decide_eq_true_eq]
  exact one_ne_zero_zmod hp

theorem Fr_eq_self (a : ZMod p) : Fr_eq a a = 1 := by
  rw [Fr_eq, if_pos rfl]

/-! ## Characterization of the Num2Bits loop -/

theorem num2bits_loop_eq (hp : 9 < p) (tr : List String) (input : ZMod p) :
    ∀ n k, k + n = 9 → ∀ bits : List (ZMod p),
      Num2Bits_loop tr input (n + 1) bits
        ((input.val % 2 ^ k : ℕ) : ZMod p) ((2 ^ k : ℕ) : ZMod p) ((k : ℕ) : ZMod p)
      = Except.ok
          (bits ++ (List.range n).map (fun j => ((bitSpec input.val (k + j) : ℕ) : ZMod p)),
           ((input.val % 2 ^ 9 : ℕ) : ZMod p)) := by
  haveI : NeZero p := ⟨by omega⟩
  have h9 : ((9 : ℕ) : ZMod p).val = 9 := by
    rw [ZMod.val_natCast, Nat.mod_eq_of_lt hp]
  intro n
  induction n with
  | zero =>
    intro k hk bits
    have hk9 : k = 9 := by omega
    subst hk9
    rw [Num2Bits_loop]
    rw [Fr_lt, h9, if_neg (lt_irrefl 9)]
    have hf : Fr_isTrue (0 : ZMod p) = false := by
      rw [Fr_isTrue]
      simp
    rw [hf]
    simp
  | succ n ih =>
    intro k hk bits
    have hklt : k < 9 := by omega
    have hkp : k < p := by omega
    have h1p : 1 < p := by omega
    have hkval : ((k : ℕ) : ZMod p).val = k := by
      rw [ZMod.val_natCast, Nat.mod_eq_of_lt hkp]
    -- the loop condition holds at this iteration
    have hcond : Fr_isTrue (Fr_lt ((k : ℕ) : ZMod p) ((9 : ℕ) : ZMod p)) = true := by
      rw [Fr_lt, hkval, h9, if_pos hklt]
      exact Fr_isTrue_one h1p
    -- the bit value written this iteration
    have hsrlt : input.val >>> k < p := by
      refine lt_of_le_of_lt ?_ (ZMod.val_lt input)
      rw [Nat.shiftRight_eq_div_pow]
      exact Nat.div_le_self _ _
    have hone : (1 : ZMod p).val = 1 := by
      haveI := Fact.mk h1p
      exact ZMod.val_one p
    have hband : Fr_band (Fr_shr input ((k : ℕ) : ZMod p)) 1
        = ((bitSpec input.val k : ℕ) : ZMod p) := by
      rw [Fr_shr, hkval, Fr_band, ZMod.val_natCast, Nat.mod_eq_of_lt hsrlt, hone]
      rfl
    -- the per-bit constraint b * (b - 1) == 0 holds
    have hb01 : bitSpec input.val k = 0 ∨ bitSpec input.val k = 1 := by
      have := bitSpec_le_one input.val k
      omega
    have hbmul : ((bitSpec input.val k : ℕ) : ZMod p)
        * (((bitSpec input.val k : ℕ) : ZMod p) - 1) = 0 := by
      rcases hb01 with h | h <;> rw [h] <;> push_cast <;> ring
    have hassert : Fr_isTrue (Fr_eq
        (((bitSpec input.val k : ℕ) : ZMod p)
          * (((bitSpec input.val k : ℕ) : ZMod p) - 1)) 0) = true := by
      rw [hbmul, Fr_eq_self]
      exact Fr_isTrue_one h1p
    -- unfold one loop iteration
    rw [Num2Bits_loop, hcond, if_pos rfl, hband]
    simp only [hassert, if_true]
    -- normalize the updated locals to the (k+1) shape
    have hl1 : ((input.val % 2 ^ k : ℕ) : ZMod p)
        + ((bitSpec input.val k : ℕ) : ZMod p) * ((2 ^ k : ℕ) : ZMod p)
        = ((input.val % 2 ^ (k + 1) : ℕ) : ZMod p) := by
      have hnat : input.val % 2 ^ (k + 1)
          = input.val % 2 ^ k + bitSpec input.val k * 2 ^ k := by
        rw [Nat.mod_pow_succ, bitSpec_eq_div_mod]
        ring
      rw [hnat]
      push_cast
      ring
    have hl2 : ((2 ^ k : ℕ) : ZMod p) + ((2 ^ k : ℕ) : ZMod p)
        = ((2 ^ (k + 1) : ℕ) : ZMod p) := by
      push_cast
      ring
    have hl3 : ((k : ℕ) : ZMod p) + 1 = (((k + 1 : ℕ)) : ZMod p) := by
      push_cast
      ring
    rw [hl1, hl2, hl3, ih (k + 1) (by omega) (bits ++ [((bitSpec input.val k : ℕ) : ZMod p)])]
    congr 1
    rw [List.append_assoc]
    congr 1
    rw [List.range_succ_eq_map, List.map_cons, List.map_map, List.singleton_append]
    simp only [Nat.add_zero]
    have hlist : List.map (fun j => ((bitSpec input.val (k + 1 + j) : ℕ) : ZMod p))
        (List.range n)
        = List.map ((fun j => ((bitSpec input.val (k + j) : ℕ) : ZMod p)) ∘ Nat.succ)
          (List.range n) := by
      refine List.map_congr_left ?_
      intro a _
      have hidx : k + 1 + a = k + Nat.succ a := by omega
      simp only [Function.comp_apply]
      rw [hidx]
    rw [hlist]

/-- Full characterization of `Num2Bits_4_run` for `p > 512`: on inputs whose
canonical representative fits in 9 bits it returns the little-endian bit
signals; otherwise the reconstruction assertion at circom line 38 fails. -/
theorem num2bits_run_eq (hp : 512 < p) (tr : List String) (v : ZMod p) :
    Num2Bits_4_run tr v =
      if v.val < 512 then
        Except.ok ((List.range 9).map (fun j => ((bitSpec v.val j : ℕ) : ZMod p)))
      else Except.error (CErr.assertFail "Num2Bits" 38 tr) := by
  haveI : NeZero p := ⟨by omega⟩
  have hp9 : 9 < p := by omega
  have hloop := num2bits_loop_eq hp9 tr v 9 0 (by omega) []
  norm_num [Nat.mod_one] at hloop
  rw [Num2Bits_4_run, hloop]
  show (if Fr_isTrue (Fr_eq ((v.val % 512 : ℕ) : ZMod p) v) = true then
      Except.ok ((List.range 9).map (fun j => ((bitSpec v.val j : ℕ) : ZMod p)))
    else Except.error (CErr.assertFail "Num2Bits" 38 tr)) = _
  have hvv : ((v.val % 512 : ℕ) : ZMod p).val = v.val % 512 := by
    rw [ZMod.val_natCast, Nat.mod_eq_of_lt (by omega)]
  by_cases hlt : v.val < 512
  · have hmod : v.val % 512 = v.val := Nat.mod_eq_of_lt hlt
    have hcast : ((v.val % 512 : ℕ) : ZMod p) = v := by
      rw [hmod]
      exact ZMod.natCast_rightInverse v
    rw [if_pos hlt, hcast, Fr_eq_self, Fr_isTrue_one (by omega), if_pos rfl]
  · have hne : ((v.val % 512 : ℕ) : ZMod p) ≠ v := by
      intro h
      have := congrArg ZMod.val h
      rw [hvv] at this
      omega
    have hfeq : Fr_eq ((v.val % 512 : ℕ) : ZMod p) v = 0 := by
      rw [Fr_eq, if_neg hne]
    have hf : Fr_isTrue (0 : ZMod p) = false := by
      rw [Fr_isTrue]
      simp
    rw [if_neg hlt, hfeq, hf]
    simp

theorem bind_ok_cerr {α β : Type} (x : α) (f : α → Except CErr β) :
    ((Except.ok x : Except CErr α) >>= f) = f x := rfl

theorem bind_error_cerr {α β : Type} (e : CErr) (f : α → Except CErr β) :
    ((Except.error e : Except CErr α) >>= f) = Except.error e := rfl

/-- The little-endian weighted sum of the first `n` bits recovers `v mod 2^n`. -/
theorem sum_bitSpec (v n : ℕ) :
    ((List.range n).map (fun i => bitSpec v i * 2 ^ i)).sum = v % 2 ^ n := by
  induction n with
  | zero => simp [Nat.mod_one]
  | succ n ih =>
    rw [List.range_succ, List.map_append, List.sum_append]
    simp only [List.map_cons, List.map_nil, List.sum_cons, List.sum_nil]
    rw [ih, bitSpec_eq_div_mod, Nat.mod_pow_succ]
    ring

/-! ## Characterization of IsZero -/

theorem isZero_run_eq (hpp : p.Prime) (tr : List String) (input : ZMod p) :
    IsZero_2_run tr input =
      Except.ok ⟨if input = 0 then 1 else 0, if input = 0 then 0 else 1 * input⁻¹⟩ := by
  haveI := Fact.mk hpp
  have h1p : 1 < p := hpp.one_lt
  rw [IsZero_2_run]
  by_cases h : input = 0
  · subst h
    have hguard : Fr_isTrue (Fr_neq (0 : ZMod p) 0) = false := by
      rw [Fr_neq, if_pos rfl, Fr_isTrue]
      simp
    rw [hguard]
    simp only [Bool.false_eq_true, if_false, bind_ok_cerr]
    have hmul : (0 : ZMod p) * (-(0 : ZMod p) * 0 + 1) = 0 := by ring
    rw [hmul, Fr_eq_self, Fr_isTrue_one h1p, if_pos rfl]
    simp
  · have hguard : Fr_isTrue (Fr_neq input 0) = true := by
      rw [Fr_neq, if_neg h]
      exact Fr_isTrue_one h1p
    rw [hguard]
    simp only [if_true]
    rw [Fr_div, if_neg h, bind_ok_cerr]
    have hout : -input * (1 * input⁻¹) + 1 = 0 := by
      rw [one_mul, neg_mul, mul_inv_cancel₀ h]
      ring
    have hmul : input * (-input * (1 * input⁻¹) + 1) = 0 := by
      rw [hout, mul_zero]
    rw [hmul, Fr_eq_self, Fr_isTrue_one h1p, if_pos rfl, if_neg h, if_neg h, hout]

/-! ## Characterization of the comparators -/

theorem lessThan_run_eq (hp : 512 < p) (tr : List String) (a b : ZMod p)
    (ha : a.val < 256) (hb : b.val < 256) :
    LessThan_5_run tr a b = Except.ok (if a.val < b.val then 1 else 0) := by
  haveI : NeZero p := ⟨by omega⟩
  have h1p : 1 < p := by omega
  rw [LessThan_5_run, Fr_isTrue_one h1p, if_pos rfl]
  have hble : b.val ≤ a.val + 256 := by omega
  have hd : a + ((256 : ℕ) : ZMod p) - b = ((a.val + 256 - b.val : ℕ) : ZMod p) := by
    rw [Nat.cast_sub hble, Nat.cast_add, ZMod.natCast_rightInverse a,
      ZMod.natCast_rightInverse b]
  have hdval : ((a.val + 256 - b.val : ℕ) : ZMod p).val = a.val + 256 - b.val :=
    ZMod.val_cast_of_lt (by omega)
  rw [hd, num2bits_run_eq hp]
  simp only [hdval]
  rw [if_pos (by omega), bind_ok_cerr, getD_range_map _ _ (by norm_num)]
  have hbit : bitSpec (a.val + 256 - b.val) 8 = if a.val < b.val then 0 else 1 := by
    rw [bitSpec_eq_div_mod]
    norm_num
    split <;> omega
  rw [hbit]
  by_cases hab : a.val < b.val
  · rw [if_pos hab, if_pos hab]
    norm_num
  · rw [if_neg hab, if_neg hab]
    norm_num

theorem gte_run_eq (hp : 512 < p) (tr : List String) (a b : ZMod p)
    (ha : a.val + 1 < 256) (hb : b.val < 256) :
    GreaterEqThan_6_run tr a b = Except.ok (if b.val ≤ a.val then 1 else 0) := by
  haveI : NeZero p := ⟨by omega⟩
  have hcast : a + 1 = ((a.val + 1 : ℕ) : ZMod p) := by
    rw [Nat.cast_add, Nat.cast_one, ZMod.natCast_rightInverse a]
  have hval : (a + 1).val = a.val + 1 := by
    rw [hcast, ZMod.val_cast_of_lt (by omega)]
  rw [GreaterEqThan_6_run, lessThan_run_eq hp _ b (a + 1) hb (by omega), bind_ok_cerr]
  rw [hval]
  congr 1
  simp only [Nat.lt_succ_iff]

theorem lte_run_eq (hp : 512 < p) (tr : List String) (a b : ZMod p)
    (ha : a.val < 256) (hb : b.val + 1 < 256) :
    LessEqThan_7_run tr a b = Except.ok (if a.val ≤ b.val then 1 else 0) := by
  haveI : NeZero p := ⟨by omega⟩
  have hcast : b + 1 = ((b.val + 1 : ℕ) : ZMod p) := by
    rw [Nat.cast_add, Nat.cast_one, ZMod.natCast_rightInverse b]
  have hval : (b + 1).val = b.val + 1 := by
    rw [hcast, ZMod.val_cast_of_lt (by omega)]
  rw [LessEqThan_7_run, lessThan_run_eq hp _ a (b + 1) ha (by omega), bind_ok_cerr]
  rw [hval]
  congr 1
  simp only [Nat.lt_succ_iff]

theorem inRange_run_eq (hp : 512 < p) (tr : List String) (v lo hi : ZMod p)
    (hv : v.val + 1 < 256) (hlo : lo.val < 256) (hhi : hi.val + 1 < 256) :
    InRange_8_run tr v lo hi = Except.ok
      ((if lo.val ≤ v.val then 1 else 0) * (if v.val ≤ hi.val then 1 else 0),
       (if lo.val ≤ v.val then 1 else 0), (if v.val ≤ hi.val then 1 else 0)) := by
  rw [InRange_8_run, gte_run_eq hp _ v lo hv hlo, bind_ok_cerr,
    lte_run_eq hp _ v hi (by omega) hhi, bind_ok_cerr]

/-! ## Claim theorems -/

/-- C1: for every input value `v`, `Num2Bits` produces bit signals whose
weighted sum (sum of `bit_i * 2^i`) reconstructs `v` whenever `v < 2^9`, and
the final reconstruction-equality assertion fails with a fatal
ConstraintViolation (the line-38 assertion report) whenever `v >= 2^9`,
rather than silently truncating `v`. -/
theorem claim1_num2bits_reconstruction (p : ℕ) (hp : 512 < p) (tr : List String)
    (v : ZMod p) :
    (v.val < 512 → ∃ bits : List (ZMod p), Num2Bits_4_run tr v = Except.ok bits ∧
      bits.length = 9 ∧
      ((List.range 9).map (fun i => (bits.getD i 0).val * 2 ^ i)).sum = v.val) ∧
    (512 ≤ v.val →
      Num2Bits_4_run tr v = Except.error (CErr.assertFail "Num2Bits" 38 tr)) := by
  constructor
  · intro hv
    refine ⟨(List.range 9).map (fun j => ((bitSpec v.val j : ℕ) : ZMod p)), ?_, by simp, ?_⟩
    · rw [num2bits_run_eq hp, if_pos hv]
    · have hsum : ∀ i ∈ List.range 9,
          ((((List.range 9).map (fun j => ((bitSpec v.val j : ℕ) : ZMod p))).getD i 0).val
            * 2 ^ i) = bitSpec v.val i * 2 ^ i := by
        intro i hi
        rw [List.mem_range] at hi
        rw [getD_range_map _ _ hi]
        congr 1
        rw [ZMod.val_natCast,
          Nat.mod_eq_of_lt (lt_of_le_of_lt (bitSpec_le_one _ _) (by omega))]
      rw [List.map_congr_left hsum, sum_bitSpec,
        show (2 : ℕ) ^ 9 = 512 by norm_num, Nat.mod_eq_of_lt hv]
  · intro hv
    rw [num2bits_run_eq hp, if_neg (by omega)]

theorem claim1_witness :
    (∃ bits : List (ZMod 521), Num2Bits_4_run [] (5 : ZMod 521) = Except.ok bits ∧
      bits.length = 9 ∧
      ((List.range 9).map (fun i => (bits.getD i 0).val * 2 ^ i)).sum
        = (5 : ZMod 521).val) ∧
    Num2Bits_4_run [] (512 : ZMod 521)
      = Except.error (CErr.assertFail "Num2Bits" 38 []) :=
  ⟨(claim1_num2bits_reconstruction 521 (by norm_num) [] 5).1 (by decide),
   (claim1_num2bits_reconstruction 521 (by norm_num) [] 512).2 (by decide)⟩

/-- C2: for every field element written to IsZero's input signal, the run
stores 1 in the output when the input is 0 and 0 when it is nonzero, the
output is computed as `-in*inv + 1` from the auxiliary inverse signal, and
the final assertion `in*out == 0` always holds on this path (the run returns
`ok`, never the line-33 assertion failure). -/
theorem claim2_iszero_semantics (p : ℕ) (hpp : p.Prime) (tr : List String)
    (input : ZMod p) :
    ∃ r : IsZeroOut p, IsZero_2_run tr input = Except.ok r ∧
      r.out = (if input = 0 then 1 else 0) ∧
      r.out = -input * r.inv + 1 ∧
      input * r.out = 0 := by
  haveI := Fact.mk hpp
  refine ⟨⟨if input = 0 then 1 else 0, if input = 0 then 0 else 1 * input⁻¹⟩,
    isZero_run_eq hpp tr input, rfl, ?_, ?_⟩
  · by_cases h : input = 0
    · subst h
      simp
    · rw [if_neg h, if_neg h, one_mul, neg_mul, mul_inv_cancel₀ h]
      ring
  · by_cases h : input = 0
    · subst h
      simp
    · rw [if_neg h, mul_zero]

theorem claim2_witness :
    ∃ r : IsZeroOut 2, IsZero_2_run [] (1 : ZMod 2) = Except.ok r ∧
      r.out = (if (1 : ZMod 2) = 0 then 1 else 0) ∧
      r.out = -(1 : ZMod 2) * r.inv + 1 ∧
      (1 : ZMod 2) * r.out = 0 :=
  claim2_iszero_semantics 2 (by norm_num) [] 1

/-- C4: for inputs whose representatives are below `2^(n-1) = 128` (bit
width `n = 8`), LessThan returns 1 exactly when `a < b` and 0 exactly when
`a >= b`, computed by bit-decomposing the biased difference `a + 2^8 - b`
and outputting 1 minus the top bit. -/
theorem claim4_lessthan_semantics (p : ℕ) (hp : 512 < p) (tr : List String)
    (a b : ZMod p) (ha : a.val < 128) (hb : b.val < 128) :
    (a.val < b.val → LessThan_5_run tr a b = Except.ok 1) ∧
    (b.val ≤ a.val → LessThan_5_run tr a b = Except.ok 0) := by
  constructor
  · intro h
    rw [lessThan_run_eq hp tr a b (by omega) (by omega), if_pos h]
  · intro h
    rw [lessThan_run_eq hp tr a b (by omega) (by omega), if_neg (not_lt.mpr h)]

theorem claim4_witness :
    LessThan_5_run [] (3 : ZMod 521) (7 : ZMod 521) = Except.ok 1 ∧
    LessThan_5_run [] (7 : ZMod 521) (3 : ZMod 521) = Except.ok 0 :=
  ⟨(claim4_lessthan_semantics 521 (by norm_num) [] 3 7 (by decide) (by decide)).1
      (by decide),
   (claim4_lessthan_semantics 521 (by norm_num) [] 7 3 (by decide) (by decide)).2
      (by decide)⟩

/-- C6: when the reconstruction assertion fails (any `Num2Bits` input with
representative at least `2^9`), the run aborts immediately with an error
carrying the failing template's name, the originating circom source line,
and the chain of enclosing component names; and a parent (`LessThan`) whose
child fails returns exactly the child's error — none of its remaining
statements produce a result — with the child's name prepended to the chain. -/
theorem claim6_constraint_failure_report (p : ℕ) (hp : 512 < p)
    (tr : List String) (v : ZMod p) (hv : 512 ≤ v.val) :
    Num2Bits_4_run tr v = Except.error (CErr.assertFail "Num2Bits" 38 tr) ∧
    ∀ (tr2 : List String) (a b : ZMod p),
      512 ≤ (a + ((256 : ℕ) : ZMod p) - b).val →
      LessThan_5_run tr2 a b
        = Except.error (CErr.assertFail "Num2Bits" 38 ("n2b" :: tr2)) := by
  constructor
  · rw [num2bits_run_eq hp, if_neg (by omega)]
  · intro tr2 a b hab
    rw [LessThan_5_run, Fr_isTrue_one (by omega), if_pos rfl,
      num2bits_run_eq hp, if_neg (by omega), bind_error_cerr]

theorem claim6_witness :
    Num2Bits_4_run [] (512 : ZMod 521)
      = Except.error (CErr.assertFail "Num2Bits" 38 []) ∧
    LessThan_5_run [] (256 : ZMod 521) 0
      = Except.error (CErr.assertFail "Num2Bits" 38 ["n2b"]) :=
  ⟨(claim6_constraint_failure_report 521 (by norm_num) [] 512 (by decide)).1,
   (claim6_constraint_failure_report 521 (by norm_num) [] 512 (by decide)).2
      [] 256 0 (by decide)⟩

/-- C7: for representable triples (representatives below 128), InRange
outputs 1 exactly when `lo <= v <= hi` and 0 otherwise, and its output
equals the field product of the GreaterEqThan sub-component's output and
the LessEqThan sub-component's output. -/
theorem claim7_inrange_semantics (p : ℕ) (hp : 512 < p) (tr : List String)
    (v lo hi : ZMod p) (hv : v.val < 128) (hlo : lo.val < 128)
    (hhi : hi.val < 128) :
    ∃ g l : ZMod p, InRange_8_run tr v lo hi = Except.ok (g * l, g, l) ∧
      g * l = (if lo.val ≤ v.val ∧ v.val ≤ hi.val then 1 else 0) := by
  refine ⟨(if lo.val ≤ v.val then 1 else 0), (if v.val ≤ hi.val then 1 else 0),
    ?_, ?_⟩
  · rw [inRange_run_eq hp tr v lo hi (by omega) (by omega) (by omega)]
  · by_cases h1 : lo.val ≤ v.val <;> by_cases h2 : v.val ≤ hi.val <;>
      simp [h1, h2]

theorem claim7_witness :
    ∃ g l : ZMod 521, InRange_8_run [] (5 : ZMod 521) 2 9 = Except.ok (g * l, g, l) ∧
      g * l = (if (2 : ZMod 521).val ≤ (5 : ZMod 521).val
          ∧ (5 : ZMod 521).val ≤ (9 : ZMod 521).val then 1 else 0) :=
  claim7_inrange_semantics 521 (by norm_num) [] 5 2 9 (by decide) (by decide)
    (by decide)

/-- C8: the division primitive is invoked only on the branch where the input
signal has been tested nonzero, so IsZero can never fail with
DivisionByZero, for any modulus and any input. -/
theorem claim8_no_division_by_zero (p : ℕ) (tr : List String) (input : ZMod p) :
    IsZero_2_run tr input ≠ Except.error CErr.divisionByZero := by
  rw [IsZero_2_run]
  cases hg : Fr_isTrue (Fr_neq input 0) with
  | false =>
    simp only [Bool.false_eq_true, if_false, bind_ok_cerr]
    split <;> simp
  | true =>
    rw [if_pos rfl]
    have hin : input ≠ 0 := by
      intro h
      rw [h, Fr_neq, if_pos rfl, Fr_isTrue] at hg
      simp at hg
    rw [Fr_div, if_neg hin, bind_ok_cerr]
    dsimp only
    split <;> simp

theorem claim8_witness :
    IsZero_2_run [] (1 : ZMod 2) ≠ Except.error CErr.divisionByZero :=
  claim8_no_division_by_zero 2 [] 1

/-- C3: for the child components at the cited call sites (the `lt` child of
`GreaterEqThan_6_run`, the `equalComponent` children and the `someEqual`
child of `Contains_13_run`), the input counter starts at the child
template's declared-input count, each write decrements it by that write's
width, it never goes negative, and the child's run is invoked exactly once,
exactly at the write that brings the counter to zero (which in `Contains`
happens mid-loop, at an interior point of the parent's statement sequence). -/
theorem claim3_input_counter_discipline :
    scheduleOk LessThan_5_inputCounter gteLtChildSchedule ∧
    scheduleOk IsEqual_3_inputCounter containsEqChildSchedule ∧
    scheduleOk IsZero_2_inputCounter containsIszChildSchedule := by
  decide

/-- Definition following the claim C5's words (the refinement target, not the
source): a most-significant-first layout would store at index `i` the bit of
weight `2^(8-i)` of the input. -/
def num2BitsMSFirst (v : ZMod p) (i : ℕ) : ZMod p :=
  ((bitSpec v.val (8 - i) : ℕ) : ZMod p)

/-- C5 counterexample: on input 1 the bit stored at signal index 0 is 1 (the
least-significant bit), not the most-significant bit demanded by the claim's
ordering, so the output array is not most-significant-first. -/
theorem claim5_counterexample :
    ∃ bits : List (ZMod 521), Num2Bits_4_run [] (1 : ZMod 521) = Except.ok bits ∧
      bits.getD 0 0 ≠ num2BitsMSFirst (1 : ZMod 521) 0 := by
  refine ⟨(List.range 9).map (fun j => ((bitSpec (1 : ZMod 521).val j : ℕ) : ZMod 521)),
    ?_, ?_⟩
  · rw [num2bits_run_eq (by norm_num), if_pos (by decide)]
  · rw [getD_range_map _ _ (by norm_num)]
    decide

/-- C5 amended: for every input value, the Num2Bits loop writes its boolean
output signals least-significant-first — signal `i` holds `(in >> i) & 1` —
with each bit constrained to `{0,1}` via `b*(b-1) == 0`. -/
theorem claim5_amended_lsb_first (p : ℕ) (hp : 9 < p) (tr : List String)
    (v : ZMod p) :
    ∃ (bits : List (ZMod p)) (acc : ZMod p),
      Num2Bits_loop tr v 10 [] 0 1 0 = Except.ok (bits, acc) ∧ bits.length = 9 ∧
      ∀ i, i < 9 →
        bits.getD i 0 = ((bitSpec v.val i : ℕ) : ZMod p) ∧
        bits.getD i 0 * (bits.getD i 0 - 1) = 0 := by
  have hloop := num2bits_loop_eq hp tr v 9 0 (by omega) []
  norm_num [Nat.mod_one] at hloop
  refine ⟨_, _, hloop, by simp, ?_⟩
  intro i hi
  rw [getD_range_map _ _ hi]
  refine ⟨rfl, ?_⟩
  have hb : bitSpec v.val i = 0 ∨ bitSpec v.val i = 1 := by
    have := bitSpec_le_one v.val i
    omega
  rcases hb with h | h <;> rw [h] <;> push_cast <;> ring

theorem claim5_witness :
    ∃ (bits : List (ZMod 11)) (acc : ZMod 11),
      Num2Bits_loop [] (1 : ZMod 11) 10 [] 0 1 0 = Except.ok (bits, acc) ∧
      bits.length = 9 ∧
      ∀ i, i < 9 →
        bits.getD i 0 = ((bitSpec (1 : ZMod 11).val i : ℕ) : ZMod 11) ∧
        bits.getD i 0 * (bits.getD i 0 - 1) = 0 :=
  claim5_amended_lsb_first 11 (by norm_num) [] 1

/-- C9: execution of the compiled statement programs is deterministic — two
executions of the same statement sequence from identical arenas produce
identical outcomes (bit-identical values in every slot on success, and the
same abort otherwise); in particular the tree driver's whole run, being such
a program, is a deterministic function of the inputs. -/
theorem claim9_exec_deterministic (p : ℕ) (s : List (CStmt p)) (a : Arena p)
    (r₁ r₂ : Option (Arena p)) :
    ExecP s a r₁ → ExecP s a r₂ → r₁ = r₂ := by
  intro h₁
  induction h₁ generalizing r₂ with
  | done =>
    intro h₂
    cases h₂
    rfl
  | assign h ih =>
    intro h₂
    cases h₂ with
    | assign h₂' => exact ih _ h₂'
  | assertOk heq h ih =>
    intro h₂
    cases h₂ with
    | assertOk heq₂ h₂' => exact ih _ h₂'
    | assertFail hne => exact absurd heq hne
  | assertFail hne =>
    intro h₂
    cases h₂ with
    | assertOk heq h₂' => exact absurd heq hne
    | assertFail hne₂ => rfl

/-- Initial arena used by the determinism witness. -/
def c9Arena0 : Arena 3 := fun _ => 0

/-- Arena after the first `IsZero` statement (inverse write). -/
def c9Arena1 : Arena 3 :=
  writeSig c9Arena0 (0 + 2)
    ((fun a => if a (0 + 1) ≠ 0 then 1 * (a (0 + 1))⁻¹ else 0) c9Arena0)

/-- Arena after the second `IsZero` statement (output write). -/
def c9Arena2 : Arena 3 :=
  writeSig c9Arena1 (0 + 0)
    ((fun a => -(a (0 + 1)) * a (0 + 2) + 1) c9Arena1)

theorem claim9_witness :
    (some c9Arena2 : Option (Arena 3)) = some c9Arena2 := by
  have d : ExecP (isZeroStmts 0) c9Arena0 (some c9Arena2) := by
    refine ExecP.assign (ExecP.assign (ExecP.assertOk ?_ ?_))
    · decide
    · exact ExecP.done
  exact claim9_exec_deterministic 3 (isZeroStmts 0) c9Arena0
    (some c9Arena2) (some c9Arena2) d d

/-- C10: releasing a component's metadata leaves every Signal Arena slot
unchanged (it frees only the per-instance bookkeeping arrays, keeping all
scalar metadata and every other component's entry), and releasing component
id 0 changes nothing at all; hence a released child's output values remain
readable by its parent regardless of when release happens. -/
theorem claim10_release_frame (p : ℕ) (ctx : Circom_CalcWit p) (pos : ℕ) :
    (∀ i, (release_memory_component ctx pos).signalValues i = ctx.signalValues i) ∧
    release_memory_component ctx 0 = ctx ∧
    (∀ q, q ≠ pos →
      (release_memory_component ctx pos).componentMemory q
        = ctx.componentMemory q) ∧
    (∀ q,
      ((release_memory_component ctx pos).componentMemory q).templateId
          = (ctx.componentMemory q).templateId ∧
      ((release_memory_component ctx pos).componentMemory q).templateName
          = (ctx.componentMemory q).templateName ∧
      ((release_memory_component ctx pos).componentMemory q).signalStart
          = (ctx.componentMemory q).signalStart ∧
      ((release_memory_component ctx pos).componentMemory q).inputCounter
          = (ctx.componentMemory q).inputCounter ∧
      ((release_memory_component ctx pos).componentMemory q).componentName
          = (ctx.componentMemory q).componentName ∧
      ((release_memory_component ctx pos).componentMemory q).idFather
          = (ctx.componentMemory q).idFather) := by
  refine ⟨?_, ?_, ?_, ?_⟩
  · intro i
    rw [release_memory_component]
    split <;> rfl
  · rw [release_memory_component]
    simp
  · intro q hq
    rw [release_memory_component]
    split
    · simp [hq]
    · rfl
  · intro q
    rw [release_memory_component]
    split
    · by_cases hq : q = pos
      · subst hq
        simp [freeBookkeeping]
      · simp [hq]
    · simp

/-- Sample calculator state used by the release-frame witness. -/
def c10Ctx : Circom_CalcWit 5 :=
  { signalValues := fun _ => 0,
    componentMemory := fun _ =>
      { templateId := 0, templateName := "", signalStart := 0, inputCounter := 0,
        componentName := "", idFather := 0,
        subcomponents := some [], subcomponentsParallel := none,
        outputIsSet := none, mutexes := none, cvs := none, sbct := none } }

theorem claim10_witness :
    release_memory_component c10Ctx 0 = c10Ctx ∧
    (release_memory_component c10Ctx 1).componentMemory 2
      = c10Ctx.componentMemory 2 ∧
    (release_memory_component c10Ctx 1).signalValues 7 = c10Ctx.signalValues 7 :=
  ⟨(claim10_release_frame 5 c10Ctx 1).2.1,
   (claim10_release_frame 5 c10Ctx 1).2.2.1 2 (by decide),
   (claim10_release_frame 5 c10Ctx 1).1 7⟩

end ParseFoldWitness
